import Mathlib

/-
Verification of the run-orchestration layer in `scripts/finetune.py`
(TheBloke/axolotl).  The Python module is shallowly embedded: the
orchestration code is modelled as pure functions that produce a trace of
observable effects (loads, saves, log lines, raised exceptions), and the
small pure helpers (`choose_config`, the override loop of `load_cfg`, the
checkpoint auto-resume scan, the debug sampling) are embedded directly.
-/

set_option autoImplicit false

namespace Finetune

/-! ## Basic data model -/

/-- Python exception classes that the orchestration layer can raise. -/
inductive PyError where
  /-- The `NameError` / `UnboundLocalError` raised on a local variable referenced before assignment. -/
  | nameError
  /-- The `ValueError` of, e.g., `random.randrange` on an empty range or `int()` on a non-numeric string. -/
  | valueError
  deriving DecidableEq

/-- The CLI dataclass `TrainerCliArgs` of `scripts/finetune.py`. -/
structure TrainerCliArgs where
  debug : Bool := false
  inference : Bool := false
  merge_lora : Bool := false
  prepare_ds_only : Bool := false
  prompter : Option String := none
  shard : Bool := false
  deriving DecidableEq

/-- The slice of the resolved `DictDefault` configuration read by `train`.
Missing keys of a `DictDefault` behave as `None` / falsy, hence the `Option`
and `Bool` typings.  `fsdp` is a (possibly empty) list in the YAML; only its
truthiness is consumed, so it is modelled as a `Bool`. -/
structure Cfg where
  debug : Bool
  adapter : Option String
  output_dir : String
  save_safetensors : Option Bool
  local_rank : Int
  flash_optimum : Bool
  relora_steps : Option Nat
  load_in_4bit : Bool
  load_in_8bit : Bool
  fsdp : Bool
  resume_from_checkpoint : Option String
  auto_resume_from_checkpoints : Bool

/-- The external world a `train` invocation interacts with: the prepared
training split (element values stand for examples), an entropy source
feeding `random.randrange`, the listing of the output directory consumed by
the checkpoint glob, whether `load_model` returned a peft config, and
whether the torch-compile guard (`torch.__version__ >= "2"` and not
win32) holds. -/
structure Env where
  trainDataset : List Int
  entropy : Nat → Nat
  dirEntries : List String
  peftConfig : Bool
  torchGe2 : Bool

/-- Observable effects of one `train` invocation, in program order. -/
inductive Event where
  | loadTokenizer
  | prepareDataset
  | checkDatasetLabels (sel : List Int)
  | log (msg : String)
  | loadModel
  | mergeAndUnload
  | castFloat16
  | saveModelW (dir : String) (safe : Bool)
  | saveTokenizer (dir : String)
  | doInference
  | setupTrainer (ds : List Int)
  | torchCompile
  | savePeftConfig (dir : String)
  | installSigint
  | ensureOutputDir (dir : String)
  | trainerTrain (resume : Option String)
  | trainerSaveModel (dir : String)
  | reverseBetterTransformer
  | exitProcess (code : Nat)
  | raise (e : PyError)
  deriving DecidableEq

/-- Line 210, `cfg.save_safetensors is True`. -/
def safeSer (cfg : Cfg) : Bool :=
  match cfg.save_safetensors with
  | some true => true
  | _ => false

/-- Truthiness of `cfg.relora_steps` (line 296): `None` and `0` are falsy. -/
def reloraActive (cfg : Cfg) : Bool :=
  match cfg.relora_steps with
  | some n => n != 0
  | none => false

/-! ## choose_config (lines 145-172) -/

/-- Outcome of `choose_config`: the `ValueError` on an empty directory, a
chosen file (recording whether the interactive prompt was used), or a run
that is still blocked on operator input after consuming every provided
input line. -/
inductive ChooseOutcome where
  | configError
  | chosen (file : String) (prompted : Bool)
  | awaitingInput
  deriving DecidableEq

/-- The interactive retry loop of `choose_config` (lines 161-170).  Each
operator input is `some c` for a line parsing as the integer `c` and `none`
for a line raising `ValueError` in `int(...)`. -/
def chooseLoop (files : List String) : List (Option Int) → ChooseOutcome
  | [] => ChooseOutcome.awaitingInput
  | i :: rest =>
    match i with
    | none => chooseLoop files rest
    | some c =>
      if 1 ≤ c ∧ c ≤ (files.length : Int) then
        ChooseOutcome.chosen (files.getD (c - 1).toNat "") true
      else chooseLoop files rest

/-- Function `choose_config(path)` where `files` is `list(path.glob("*.yml"))` and
`inputs` the operator's numeric choices (lines 145-172). -/
def choose_config (files : List String) (inputs : List (Option Int)) : ChooseOutcome :=
  if files.isEmpty then ChooseOutcome.configError
  else if files.length = 1 then ChooseOutcome.chosen (files.getD 0 "") false
  else chooseLoop files inputs

/-! ## load_cfg override loop (lines 321-331) -/

/-- Python values stored in the YAML-backed `DictDefault`. -/
inductive Val where
  | vbool (b : Bool)
  | vint (n : Int)
  | vstr (s : String)
  | vnone
  deriving DecidableEq

/-- Python truthiness of a `Val`. -/
def pyTruthy : Val → Bool
  | Val.vbool b => b
  | Val.vint n => n != 0
  | Val.vstr s => !s.isEmpty
  | Val.vnone => false

/-- Dictionary lookup; the config is a Python dict, keys are unique, and the
first binding wins. -/
def lookupVal (cfg : List (String × Val)) (k : String) : Option Val :=
  match cfg with
  | [] => none
  | (k', v) :: rest => if k' = k then some v else lookupVal rest k

/-- Assignment `cfg[k] = v`: replace the binding of `k`, or append it when absent. -/
def setKV (cfg : List (String × Val)) (k : String) (v : Val) : List (String × Val) :=
  match cfg with
  | [] => [(k, v)]
  | (k', v') :: rest => if k' = k then (k, v) :: rest else (k', v') :: setKV rest k v

/-- Truthiness of `cfg.strict`: a `DictDefault` yields a falsy empty value for
a missing key. -/
def strictOf (cfg : List (String × Val)) : Bool :=
  pyTruthy ((lookupVal cfg "strict").getD Val.vnone)

/-- One iteration of the override loop of `load_cfg` (lines 324-331): the
override is written when `k in cfg_keys or not cfg.strict`, and is coerced
with `bool(...)` when the existing value `cfg[k]` is a Python `bool`. -/
def applyKwarg (cfg : List (String × Val)) (k : String) (v : Val) : List (String × Val) :=
  if (lookupVal cfg k).isSome || !strictOf cfg then
    match lookupVal cfg k with
    | some (Val.vbool _) => setKV cfg k (Val.vbool (pyTruthy v))
    | _ => setKV cfg k v
  else cfg

/-- The whole `for k, _ in kwargs.items()` loop of `load_cfg`. -/
def applyKwargs (cfg : List (String × Val)) (kwargs : List (String × Val)) :
    List (String × Val) :=
  kwargs.foldl (fun c kv => applyKwarg c kv.1 kv.2) cfg

/-! ## Checkpoint auto-resume (lines 236-249) -/

/-- Python `s.split("-")` on a single-character separator, on the character list of
the string. -/
def splitDash : List Char → List (List Char)
  | [] => [[]]
  | c :: rest =>
    let r := splitDash rest
    if c = '-' then [] :: r
    else
      match r with
      | [] => [[c]]
      | g :: gs => (c :: g) :: gs

/-- Python `int(s)` restricted to the non-negative decimal literals that occur as
checkpoint step suffixes; every other string raises `ValueError` (`none`). -/
def parseDigits (cs : List Char) : Option Nat :=
  if cs.isEmpty then none
  else
    cs.foldl
      (fun acc c =>
        acc.bind fun n => if c.isDigit then some (n * 10 + (c.toNat - 48)) else none)
      (some 0)

/-- The sort key `int(path.split("-")[-1])` of line 243. -/
def ckptKey (path : String) : Option Nat :=
  parseDigits (((splitDash path.toList).getLast?).getD [])

/-- The comprehension `[str(cp) for cp in Path(cfg.output_dir).glob("checkpoint-*")]`:
directory entries whose name starts with `checkpoint-`, joined to the
output directory (lines 237-239). -/
def globCheckpoints (outputDir : String) (entries : List String) : List String :=
  (entries.filter fun e => List.isPrefixOf "checkpoint-".toList e.toList).map
    fun e => outputDir ++ "/" ++ e

/-- Python `sorted(..., key=...)` first computes the key of every element
(raising `ValueError` on the first non-numeric suffix, modelled by
`none`). -/
def decorate : List String → Option (List (String × Nat))
  | [] => some []
  | p :: ps =>
    match ckptKey p, decorate ps with
    | some k, some r => some ((p, k) :: r)
    | _, _ => none

/-- Insert into a key-sorted list, after any element with an equal key
(matching the stability of Python's `sorted`). -/
def insSorted (x : String × Nat) : List (String × Nat) → List (String × Nat)
  | [] => [x]
  | y :: ys => if x.2 < y.2 then x :: y :: ys else y :: insSorted x ys

/-- Stable ascending sort by key, the behaviour of `sorted(possible_checkpoints,
key=lambda path: int(path.split("-")[-1]))`. -/
def sortPairs (l : List (String × Nat)) : List (String × Nat) :=
  l.foldl (fun acc x => insSorted x acc) []

/-- Lines 236-249: auto-resume runs only when no checkpoint is configured
and `auto_resume_from_checkpoints` is truthy; it then globs
`checkpoint-*`, sorts by trailing numeric suffix and takes
`sorted_paths[-1]`.  The `Except` error is the `ValueError` raised by
`int()` on a matching entry without a numeric suffix. -/
def resolveCheckpoint (cfg : Cfg) (entries : List String) :
    Except String (Option String) :=
  if cfg.resume_from_checkpoint = none ∧ cfg.auto_resume_from_checkpoints then
    let possible := globCheckpoints cfg.output_dir entries
    if 0 < possible.length then
      match decorate possible with
      | none => Except.error "invalid literal for int() with base 10"
      | some keyed => Except.ok (((sortPairs keyed).getLast?).map Prod.fst)
    else Except.ok none
  else Except.ok cfg.resume_from_checkpoint

/-! ## Debug label inspection (lines 193-200) -/

/-- The five indices `[random.randrange(0, len(train_dataset) - 1) for _ in
range(5)]`, for a split of `n` examples (`n ≥ 2`; smaller splits raise
before any index is produced).  `randrange(0, m)` draws uniformly from
`[0, m)`; the draw is modelled by reducing an abstract entropy source
modulo the range size. -/
def debugIndices (n : Nat) (ent : Nat → Nat) : List Nat :=
  (List.range 5).map fun i => ent i % (n - 1)

/-- Selection `train_dataset.select(indices)`: a fresh sequence holding the selected
examples; the original split is untouched. -/
def debugSelection (ds : List Int) (ent : Nat → Nat) : List Int :=
  (debugIndices ds.length ent).map fun i => ds.getD i 0

/-! ## The train() trace (lines 179-311) -/

/-- Lines 305-311: the distributed-aware save — delegate to
`trainer.save_model` under fsdp, otherwise write on local rank 0 only,
reversing the BetterTransformer transform first when `flash_optimum` is
set. -/
def standardSave (cfg : Cfg) : List Event :=
  if cfg.fsdp then [Event.trainerSaveModel cfg.output_dir]
  else if cfg.local_rank = 0 then
    (if cfg.flash_optimum then [Event.reverseBetterTransformer] else []) ++
      [Event.saveModelW cfg.output_dir (safeSer cfg)]
  else []

/-- Lines 296-311: the post-training finalizer.  Under an active relora
schedule, a plain unquantized lora adapter is merged-and-unloaded before
the standard save; any other relora run returns without re-saving. -/
def finalize (cfg : Cfg) : List Event :=
  if reloraActive cfg then
    if cfg.adapter = some "lora" && !cfg.load_in_4bit && !cfg.load_in_8bit then
      Event.mergeAndUnload :: standardSave cfg
    else []
  else standardSave cfg

/-- The closure `terminate_handler` (lines 269-273): reverse the
BetterTransformer transform when `flash_optimum` is set, save the model,
exit with status 0. -/
def terminate_handler (cfg : Cfg) : List Event :=
  (if cfg.flash_optimum then [Event.reverseBetterTransformer] else []) ++
    [Event.saveModelW cfg.output_dir (safeSer cfg), Event.exitProcess 0]

/-- Delivering SIGINT to a process whose `train` produced trace `tr`: the
handler runs iff it was installed (line 275-277); otherwise the default
disposition raises `KeyboardInterrupt` and nothing is saved. -/
def deliverSigint (tr : List Event) (cfg : Cfg) : List Event :=
  if Event.installSigint ∈ tr then terminate_handler cfg else []

/-- Lines 251-292 once training mode is reached with a prepared dataset and
a resolved resume target: trainer setup, optional torch compile, optional
adapter-config pre-save, rank-0 SIGINT handler install, output-dir
creation, tokenizer save, and the blocking `trainer.train`. -/
def trainModePre (cfg : Cfg) (env : Env) (ds : List Int) (resume : Option String) :
    List Event :=
  [Event.setupTrainer ds] ++
    (if env.torchGe2 then [Event.torchCompile] else []) ++
    (if env.peftConfig then [Event.savePeftConfig cfg.output_dir] else []) ++
    (if cfg.local_rank = 0 then [Event.installSigint] else []) ++
    [Event.log "Starting trainer...", Event.ensureOutputDir cfg.output_dir,
      Event.saveTokenizer cfg.output_dir, Event.trainerTrain resume]

/-- Lines 236 onward (the default training state): checkpoint resolution,
then trainer setup — which raises `NameError` when `train_dataset` was
never assigned because a non-training mode flag suppressed dataset
preparation (line 188-191 vs line 251). -/
def trainModeTail (cfg : Cfg) (env : Env) (ds? : Option (List Int)) : List Event :=
  match resolveCheckpoint cfg env.dirEntries with
  | Except.error _ => [Event.raise PyError.valueError]
  | Except.ok resume =>
    match ds? with
    | none => [Event.raise PyError.nameError]
    | some ds => trainModePre cfg env ds resume ++ finalize cfg

/-- Lines 202-234 and the fall-through to training: the prioritized mode
dispatch after the debug check. -/
def afterDebug (cfg : Cfg) (cli : TrainerCliArgs) (env : Env)
    (ds? : Option (List Int)) : List Event :=
  if cli.prepare_ds_only then [Event.log "Finished preparing dataset. Exiting..."]
  else
    Event.loadModel ::
      (if cli.merge_lora && cfg.adapter.isSome then
        [Event.log "running merge of LoRA with base model", Event.mergeAndUnload,
          Event.castFloat16] ++
          (if cfg.local_rank = 0 then
            [Event.saveModelW (cfg.output_dir ++ "/merged") (safeSer cfg),
              Event.saveTokenizer (cfg.output_dir ++ "/merged")]
          else [])
      else if cli.inference then [Event.log "Running inference on model", Event.doInference]
      else if cli.shard then
        [Event.log "Re-saving model w/ sharding",
          Event.saveModelW cfg.output_dir (safeSer cfg)]
      else trainModeTail cfg env ds?)

/-- The effect trace of one `train(cfg, cli_args)` invocation
(lines 179-311).  `train_dataset` is bound only when no non-training mode
flag is set (lines 188-191); the debug inspection dereferences it
(line 196) and raises when it is unbound, or raises `ValueError` from
`randrange` when the split has fewer than two examples. -/
def trainTrace (cfg : Cfg) (cli : TrainerCliArgs) (env : Env) : List Event :=
  let skipData := cli.shard || cli.merge_lora || cli.inference
  let ds? : Option (List Int) := if skipData then none else some env.trainDataset
  Event.loadTokenizer ::
    ((if skipData then [] else [Event.prepareDataset]) ++
      (if cli.debug || cfg.debug then
        match ds? with
        | none => [Event.raise PyError.nameError]
        | some ds =>
          if ds.length < 2 then [Event.raise PyError.valueError]
          else
            Event.checkDatasetLabels (debugSelection ds env.entropy) ::
              afterDebug cfg cli env (some ds)
      else afterDebug cfg cli env ds?))

/-! ## Mode identification -/

/-- The five mutually exclusive run modes of the dispatcher. -/
inductive Mode where
  | prepareOnly
  | mergeLora
  | inferenceMode
  | shardMode
  | trainMode
  deriving DecidableEq

/-- Each terminal branch announces itself with a fixed log line
(lines 203, 213, 227, 232, 279); those lines identify the mode that
executed. -/
def modeMark : Event → Option Mode
  | Event.log s =>
    if s = "Finished preparing dataset. Exiting..." then some Mode.prepareOnly
    else if s = "running merge of LoRA with base model" then some Mode.mergeLora
    else if s = "Running inference on model" then some Mode.inferenceMode
    else if s = "Re-saving model w/ sharding" then some Mode.shardMode
    else if s = "Starting trainer..." then some Mode.trainMode
    else none
  | _ => none

/-- The modes whose terminal sequence executed, in order. -/
def modeMarks (tr : List Event) : List Mode :=
  tr.filterMap modeMark

/-- The priority order of lines 202, 212, 226, 231: first matching flag
wins, the default is training. -/
def selectedMode (cfg : Cfg) (cli : TrainerCliArgs) : Mode :=
  if cli.prepare_ds_only then Mode.prepareOnly
  else if cli.merge_lora && cfg.adapter.isSome then Mode.mergeLora
  else if cli.inference then Mode.inferenceMode
  else if cli.shard then Mode.shardMode
  else Mode.trainMode

/-! ## Concrete fixtures used by witnesses and counterexamples -/

/-- A minimal configuration: rank 0, no adapter, no special options. -/
def cfgT : Cfg :=
  { debug := false, adapter := none, output_dir := "out", save_safetensors := none,
    local_rank := 0, flash_optimum := false, relora_steps := none, load_in_4bit := false,
    load_in_8bit := false, fsdp := false, resume_from_checkpoint := none,
    auto_resume_from_checkpoints := false }

/-- A three-example training split with a fixed entropy source and an empty
output directory. -/
def envT : Env :=
  { trainDataset := [10, 20, 30], entropy := fun i => i + 7, dirEntries := [],
    peftConfig := false, torchGe2 := false }

/-- All mode flags off: the default training invocation. -/
def cliT : TrainerCliArgs := {}

/-- An explicitly configured resume checkpoint. -/
def cfgE : Cfg := { cfgT with resume_from_checkpoint := some "prior" }

/-- Auto-resume enabled, no explicit checkpoint. -/
def cfgAuto : Cfg := { cfgT with auto_resume_from_checkpoints := true }

/-- Debug label inspection requested from the CLI. -/
def cliDbg : TrainerCliArgs := { cliT with debug := true }

/-- Both `merge_lora` and `shard` set. -/
def cliMS : TrainerCliArgs := { cliT with merge_lora := true, shard := true }

/-- A lora adapter is configured. -/
def cfgLora : Cfg := { cfgT with adapter := some "lora" }

/-- Debug inspection together with the shard mode flag. -/
def cliDbgShard : TrainerCliArgs := { cliT with debug := true, shard := true }

/-- Only `merge_lora` set. -/
def cliM : TrainerCliArgs := { cliT with merge_lora := true }

/-- Fully-sharded strategy together with the flash_optimum transform. -/
def cfgFsdpFlash : Cfg := { cfgT with fsdp := true, flash_optimum := true }

/-- flash_optimum on a plain rank-0 non-fsdp run. -/
def cfgFlash : Cfg := { cfgT with flash_optimum := true }

/-- A non-coordinating participant (local rank 1). -/
def cfgR1 : Cfg := { cfgT with local_rank := 1 }

/-! ## Helper lemmas -/

theorem getD_mem {l : List String} {i : Nat} (h : i < l.length) (d : String) :
    l.getD i d ∈ l := by
  induction l generalizing i with
  | nil => simp at h
  | cons x xs ih =>
    cases i with
    | zero => simp
    | succ n =>
      have hn : n < xs.length := by simpa using h
      simpa using Or.inr (ih hn)

theorem chooseLoop_spec (files : List String) (inputs : List (Option Int)) :
    chooseLoop files inputs = ChooseOutcome.awaitingInput ∨
      ∃ f, chooseLoop files inputs = ChooseOutcome.chosen f true ∧ f ∈ files := by
  induction inputs with
  | nil => exact Or.inl rfl
  | cons i rest ih =>
    cases i with
    | none => simpa [chooseLoop] using ih
    | some c =>
      by_cases h : 1 ≤ c ∧ c ≤ (files.length : Int)
      · refine Or.inr ⟨files.getD (c - 1).toNat "", by simp [chooseLoop, h], ?_⟩
        have hlt : (c - 1).toNat < files.length := by omega
        exact getD_mem hlt _
      · simpa [chooseLoop, h] using ih

theorem lookup_setKV_self (cfg : List (String × Val)) (k : String) (v : Val) :
    lookupVal (setKV cfg k v) k = some v := by
  induction cfg with
  | nil => simp [setKV, lookupVal]
  | cons p rest ih =>
    obtain ⟨k', v'⟩ := p
    by_cases h : k' = k
    · simp [setKV, h, lookupVal]
    · simp [setKV, h, lookupVal, ih]

theorem mem_insSorted (x a : String × Nat) (l : List (String × Nat)) :
    a ∈ insSorted x l ↔ a = x ∨ a ∈ l := by
  induction l with
  | nil => simp [insSorted]
  | cons y ys ih =>
    by_cases h : x.2 < y.2
    · simp only [insSorted, if_pos h, List.mem_cons]
    · simp only [insSorted, if_neg h, List.mem_cons, ih]
      tauto

theorem pairwise_insSorted (x : String × Nat) (l : List (String × Nat))
    (h : l.Pairwise fun a b => a.2 ≤ b.2) :
    (insSorted x l).Pairwise fun a b => a.2 ≤ b.2 := by
  induction l with
  | nil => simp [insSorted]
  | cons y ys ih =>
    cases h with
    | cons hy hys =>
      by_cases hx : x.2 < y.2
      · rw [insSorted, if_pos hx]
        refine List.Pairwise.cons ?_ (List.Pairwise.cons hy hys)
        intro z hz
        rcases List.mem_cons.mp hz with rfl | hz'
        · omega
        · have := hy z hz'
          omega
      · rw [insSorted, if_neg hx]
        refine List.Pairwise.cons ?_ (ih hys)
        intro z hz
        rcases (mem_insSorted x z ys).mp hz with rfl | hz'
        · omega
        · exact hy z hz'

theorem pairwise_sortPairs (l : List (String × Nat)) :
    (sortPairs l).Pairwise fun a b => a.2 ≤ b.2 := by
  suffices h : ∀ acc : List (String × Nat), (acc.Pairwise fun a b => a.2 ≤ b.2) →
      ((l.foldl (fun acc x => insSorted x acc) acc).Pairwise fun a b => a.2 ≤ b.2) from
    h [] (by simp)
  induction l with
  | nil => intro acc h; simpa using h
  | cons x xs ih =>
    intro acc h
    exact ih _ (pairwise_insSorted x acc h)

theorem mem_sortPairs (l : List (String × Nat)) (a : String × Nat) :
    a ∈ sortPairs l ↔ a ∈ l := by
  suffices h : ∀ acc : List (String × Nat),
      (a ∈ l.foldl (fun acc x => insSorted x acc) acc ↔ a ∈ l ∨ a ∈ acc) by
    simpa using h []
  induction l with
  | nil => intro acc; simp
  | cons x xs ih =>
    intro acc
    rw [List.foldl_cons, ih (insSorted x acc)]
    rw [mem_insSorted]
    simp only [List.mem_cons]
    tauto

theorem mem_of_getLast?_eq {α : Type} {l : List α} {m : α} (h : l.getLast? = some m) :
    m ∈ l := by
  induction l with
  | nil => simp [List.getLast?] at h
  | cons x xs ih =>
    cases xs with
    | nil =>
      simp only [List.getLast?_singleton, Option.some.injEq] at h
      simp [h]
    | cons y ys =>
      rw [List.getLast?_cons_cons] at h
      exact List.mem_cons_of_mem x (ih h)

theorem getLast?_of_ne_nil {α : Type} {l : List α} (h : l ≠ []) :
    ∃ m, l.getLast? = some m := by
  induction l with
  | nil => exact absurd rfl h
  | cons x xs ih =>
    cases xs with
    | nil => exact ⟨x, rfl⟩
    | cons y ys =>
      obtain ⟨m, hm⟩ := ih (by simp)
      exact ⟨m, by rw [List.getLast?_cons_cons]; exact hm⟩

theorem pairwise_getLast_max (l : List (String × Nat))
    (hp : l.Pairwise fun a b => a.2 ≤ b.2) (a : String × Nat) (ha : a ∈ l)
    (m : String × Nat) (hm : l.getLast? = some m) : a.2 ≤ m.2 := by
  induction l with
  | nil => simp at ha
  | cons x xs ih =>
    cases hp with
    | cons hx hxs =>
      cases xs with
      | nil =>
        simp only [List.getLast?_singleton, Option.some.injEq] at hm
        rcases List.mem_singleton.mp ha with rfl
        rw [← hm]
      | cons y ys =>
        rw [List.getLast?_cons_cons] at hm
        have hmm : m ∈ y :: ys := mem_of_getLast?_eq hm
        rcases List.mem_cons.mp ha with rfl | ha'
        · exact hx m hmm
        · exact ih hxs ha' hm

theorem decorate_spec (ps : List String) (keyed : List (String × Nat))
    (h : decorate ps = some keyed) :
    (∀ pk ∈ keyed, pk.1 ∈ ps ∧ ckptKey pk.1 = some pk.2)
    ∧ (∀ p ∈ ps, ∃ k, ckptKey p = some k ∧ (p, k) ∈ keyed)
    ∧ (ps = [] ↔ keyed = []) := by
  induction ps generalizing keyed with
  | nil =>
    simp only [decorate, Option.some.injEq] at h
    subst h
    simp
  | cons p ps' ih =>
    rw [decorate] at h
    cases hk : ckptKey p with
    | none => rw [hk] at h; exact absurd h (by simp)
    | some k =>
      rw [hk] at h
      cases hd : decorate ps' with
      | none => rw [hd] at h; exact absurd h (by simp)
      | some r =>
        rw [hd] at h
        obtain rfl : (p, k) :: r = keyed := by simpa using h
        obtain ⟨h1, h2, _⟩ := ih r hd
        refine ⟨?_, ?_, by simp⟩
        · intro pk hpk
          rcases List.mem_cons.mp hpk with rfl | hpk'
          · exact ⟨List.mem_cons_self _ _, hk⟩
          · obtain ⟨hp1, hp2⟩ := h1 pk hpk'
            exact ⟨List.mem_cons_of_mem _ hp1, hp2⟩
        · intro q hq
          rcases List.mem_cons.mp hq with rfl | hq'
          · exact ⟨k, hk, List.mem_cons_self _ _⟩
          · obtain ⟨kq, hkq, hmem⟩ := h2 q hq'
            exact ⟨kq, hkq, List.mem_cons_of_mem _ hmem⟩

theorem decorate_total (ps : List String)
    (h : ∀ q ∈ ps, (ckptKey q).isSome = true) :
    ∃ keyed, decorate ps = some keyed := by
  induction ps with
  | nil => exact ⟨[], rfl⟩
  | cons p ps' ih =>
    obtain ⟨k, hk⟩ := Option.isSome_iff_exists.mp (h p (List.mem_cons_self _ _))
    obtain ⟨r, hr⟩ := ih fun q hq => h q (List.mem_cons_of_mem _ hq)
    exact ⟨(p, k) :: r, by rw [decorate, hk, hr]⟩

theorem mem_if_singleton {α : Type} (a b : α) (c : Prop) [Decidable c] :
    (a ∈ if c then [b] else []) ↔ c ∧ a = b := by
  split_ifs with h <;> simp [h]

theorem sigint_not_in_finalize (cfg : Cfg) : Event.installSigint ∉ finalize cfg := by
  unfold finalize standardSave
  split_ifs <;> simp

theorem append_merged_ne (s : String) : s ++ "/merged" ≠ s := by
  intro h
  have hlen := congrArg String.length h
  rw [String.length_append] at hlen
  have h7 : "/merged".length = 7 := rfl
  omega

theorem modeMarks_append (a b : List Event) :
    modeMarks (a ++ b) = modeMarks a ++ modeMarks b :=
  List.filterMap_append a b modeMark

theorem marks_standardSave (cfg : Cfg) : modeMarks (standardSave cfg) = [] := by
  unfold standardSave modeMarks
  split_ifs <;> simp [modeMark]

theorem marks_finalize (cfg : Cfg) : modeMarks (finalize cfg) = [] := by
  unfold finalize
  split_ifs with h1 h2
  · simpa [modeMarks, modeMark] using marks_standardSave cfg
  · rfl
  · exact marks_standardSave cfg

theorem marks_trainModePre (cfg : Cfg) (env : Env) (ds : List Int) (r : Option String) :
    modeMarks (trainModePre cfg env ds r) = [Mode.trainMode] := by
  unfold trainModePre modeMarks
  split_ifs <;> simp [modeMark]

theorem marks_trainModeTail_some (cfg : Cfg) (env : Env) (ds : List Int)
    (r : Option String) (hr : resolveCheckpoint cfg env.dirEntries = Except.ok r) :
    modeMarks (trainModeTail cfg env (some ds)) = [Mode.trainMode] := by
  simp [trainModeTail, hr, modeMarks_append, marks_trainModePre, marks_finalize]

theorem marks_afterDebug (cfg : Cfg) (cli : TrainerCliArgs) (env : Env)
    (ds? : Option (List Int)) (r : Option String)
    (hr : resolveCheckpoint cfg env.dirEntries = Except.ok r)
    (hds : cli.prepare_ds_only = false → (cli.merge_lora && cfg.adapter.isSome) = false →
      cli.inference = false → cli.shard = false → ds?.isSome = true) :
    modeMarks (afterDebug cfg cli env ds?) = [selectedMode cfg cli] := by
  unfold afterDebug selectedMode
  cases hpo : cli.prepare_ds_only with
  | true => simp [modeMarks, modeMark]
  | false =>
    cases hmg : (cli.merge_lora && cfg.adapter.isSome) with
    | true =>
      simp only [Bool.false_eq_true, if_false, hmg, if_true]
      split_ifs <;> simp [modeMarks, modeMark, List.filterMap_append]
    | false =>
      cases hin : cli.inference with
      | true => simp [hmg, modeMarks, modeMark]
      | false =>
        cases hsh : cli.shard with
        | true => simp [hmg, hin, modeMarks, modeMark]
        | false =>
          obtain ⟨ds, rfl⟩ := Option.isSome_iff_exists.mp (hds hpo hmg hin hsh)
          simp only [hpo, hmg, hin, hsh, Bool.false_eq_true, if_false]
          exact marks_trainModeTail_some cfg env ds r hr

/-! ## Claim theorems -/

/-- C7: when the configuration source is a directory, zero YAML candidates
raise the configuration error, exactly one candidate is selected without
prompting, and two or more candidates send the resolver into the
interactive prompt (which either stays awaiting input or yields a chosen
file from the candidate list). -/
theorem choose_config_branches (files : List String) (inputs : List (Option Int)) :
    (files = [] → choose_config files inputs = ChooseOutcome.configError)
    ∧ (files.length = 1 →
        ∃ f, choose_config files inputs = ChooseOutcome.chosen f false ∧ files = [f])
    ∧ (2 ≤ files.length →
        choose_config files inputs = ChooseOutcome.awaitingInput ∨
          ∃ f, choose_config files inputs = ChooseOutcome.chosen f true ∧ f ∈ files) := by
  refine ⟨?_, ?_, ?_⟩
  · rintro rfl
    rfl
  · intro h
    match files, h with
    | [f], _ => exact ⟨f, by simp [choose_config], rfl⟩
  · intro h
    have h0 : files.isEmpty = false := by
      cases files with
      | nil => simp at h
      | cons x xs => rfl
    have h1 : files.length ≠ 1 := by omega
    simpa [choose_config, h0, h1] using chooseLoop_spec files inputs

/-- C7 witness: a directory with exactly one YAML candidate selects it
without prompting. -/
theorem choose_config_branches_wit :
    ∃ f, choose_config ["a.yml"] [] = ChooseOutcome.chosen f false ∧ ["a.yml"] = [f] :=
  (choose_config_branches ["a.yml"] []).2.1 rfl

/-- C8: an override key=value pair is written if and only if the key
already exists in the configuration or the configuration is non-strict, and
when the existing value is boolean-typed the override is coerced with
`bool(...)` before being stored. -/
theorem override_application (cfg : List (String × Val)) (k : String) (v : Val) :
    (lookupVal cfg k = none → strictOf cfg = true → applyKwarg cfg k v = cfg)
    ∧ ((lookupVal cfg k).isSome = true ∨ strictOf cfg = false →
        (∀ b, lookupVal cfg k = some (Val.vbool b) →
          lookupVal (applyKwarg cfg k v) k = some (Val.vbool (pyTruthy v)))
        ∧ ((∀ b, lookupVal cfg k ≠ some (Val.vbool b)) →
          lookupVal (applyKwarg cfg k v) k = some v)) := by
  constructor
  · intro h1 h2
    simp [applyKwarg, h1, h2]
  · intro hcond
    have hc : ((lookupVal cfg k).isSome || !strictOf cfg) = true := by
      rcases hcond with h | h
      · simp [h]
      · simp [h]
    constructor
    · intro b hb
      simp only [applyKwarg, hc, if_true, hb]
      exact lookup_setKV_self cfg k (Val.vbool (pyTruthy v))
    · intro hnb
      simp only [applyKwarg, hc, if_true]
      cases hl : lookupVal cfg k with
      | none => simpa [hl] using lookup_setKV_self cfg k v
      | some w =>
        cases w with
        | vbool b => exact absurd hl (hnb b)
        | vint n => simpa [hl] using lookup_setKV_self cfg k v
        | vstr s => simpa [hl] using lookup_setKV_self cfg k v
        | vnone => simpa [hl] using lookup_setKV_self cfg k v

/-- C8 witness: overriding the pre-existing non-boolean key `lr` stores the
raw override value. -/
theorem override_application_wit :
    lookupVal (applyKwarg [("strict", Val.vbool true), ("lr", Val.vint 3)] "lr"
      (Val.vstr "x")) "lr" = some (Val.vstr "x") :=
  ((override_application [("strict", Val.vbool true), ("lr", Val.vint 3)] "lr"
      (Val.vstr "x")).2 (by decide)).2 (by decide)

/-- C6: auto-resume runs only when no checkpoint is configured and the
auto-resume option is enabled; an explicitly configured checkpoint always
wins; an empty glob leaves the resume target unset; and otherwise the
selected path is a globbed `checkpoint-*` entry whose trailing numeric
suffix is maximal. -/
theorem checkpoint_resolution (cfg : Cfg) (entries : List String) :
    (∀ p, cfg.resume_from_checkpoint = some p →
      resolveCheckpoint cfg entries = Except.ok (some p))
    ∧ (cfg.auto_resume_from_checkpoints = false →
      resolveCheckpoint cfg entries = Except.ok cfg.resume_from_checkpoint)
    ∧ (cfg.resume_from_checkpoint = none → cfg.auto_resume_from_checkpoints = true →
        globCheckpoints cfg.output_dir entries = [] →
        resolveCheckpoint cfg entries = Except.ok none)
    ∧ (cfg.resume_from_checkpoint = none → cfg.auto_resume_from_checkpoints = true →
        globCheckpoints cfg.output_dir entries ≠ [] →
        (∀ q ∈ globCheckpoints cfg.output_dir entries, (ckptKey q).isSome = true) →
        ∃ p k, resolveCheckpoint cfg entries = Except.ok (some p)
          ∧ p ∈ globCheckpoints cfg.output_dir entries
          ∧ ckptKey p = some k
          ∧ ∀ q kq, q ∈ globCheckpoints cfg.output_dir entries →
              ckptKey q = some kq → kq ≤ k) := by
  refine ⟨?_, ?_, ?_, ?_⟩
  · intro p hp
    simp [resolveCheckpoint, hp]
  · intro ha
    simp [resolveCheckpoint, ha]
  · intro hn ha hg
    simp [resolveCheckpoint, hn, ha, hg]
  · intro hn ha hne hkeys
    obtain ⟨keyed, hdec⟩ := decorate_total _ hkeys
    obtain ⟨h1, h2, h3⟩ := decorate_spec _ _ hdec
    have hkne : keyed ≠ [] := fun hk => hne (h3.mpr hk)
    have hsne : sortPairs keyed ≠ [] := by
      intro hs
      obtain ⟨m, hm⟩ := getLast?_of_ne_nil hkne
      have : m ∈ sortPairs keyed := (mem_sortPairs keyed m).mpr (mem_of_getLast?_eq hm)
      rw [hs] at this
      simp at this
    obtain ⟨⟨p, k⟩, hlast⟩ := getLast?_of_ne_nil hsne
    have hlen : 0 < (globCheckpoints cfg.output_dir entries).length :=
      List.length_pos.mpr hne
    have hres : resolveCheckpoint cfg entries = Except.ok (some p) := by
      rw [resolveCheckpoint, if_pos ⟨hn, by rw [ha]⟩]
      simp only [hlen, if_true, hdec, hlast]
      rfl
    have hmem : (p, k) ∈ keyed :=
      (mem_sortPairs keyed (p, k)).mp (mem_of_getLast?_eq hlast)
    obtain ⟨hp1, hp2⟩ := h1 (p, k) hmem
    refine ⟨p, k, hres, hp1, hp2, ?_⟩
    intro q kq hq hkq
    obtain ⟨kq', hkq', hmemq⟩ := h2 q hq
    obtain rfl : kq = kq' := by
      rw [hkq] at hkq'
      simpa using hkq'
    have : (q, kq) ∈ sortPairs keyed := (mem_sortPairs keyed (q, kq)).mpr hmemq
    exact pairwise_getLast_max (sortPairs keyed) (pairwise_sortPairs keyed)
      (q, kq) this (p, k) hlast

/-- C6 witness: an explicit checkpoint wins over discovery, and among
`checkpoint-5`, `checkpoint-20`, `checkpoint-3` the maximal suffix
`checkpoint-20` is selected. -/
theorem checkpoint_resolution_wit :
    resolveCheckpoint cfgE [] = Except.ok (some "prior")
    ∧ resolveCheckpoint cfgAuto ["checkpoint-5", "checkpoint-20", "checkpoint-3"] =
        Except.ok (some "out/checkpoint-20") :=
  ⟨(checkpoint_resolution cfgE []).1 "prior" rfl, by rfl⟩

/-- C10: with debug label inspection enabled on a training-path run, a
split of fewer than two examples raises `ValueError` from `randrange`
before anything else happens; otherwise the five sampled indices all lie in
`[0, len - 2]`, the last example's index is never drawn, the inspection
event carries a fresh selection, and the trainer is later set up with the
original, unmodified split. -/
theorem debug_sampling_range (cfg : Cfg) (cli : TrainerCliArgs) (env : Env)
    (hdbg : (cli.debug || cfg.debug) = true)
    (hmode : (cli.shard || cli.merge_lora || cli.inference) = false) :
    (env.trainDataset.length < 2 →
      trainTrace cfg cli env =
        [Event.loadTokenizer, Event.prepareDataset, Event.raise PyError.valueError])
    ∧ (2 ≤ env.trainDataset.length →
        (debugIndices env.trainDataset.length env.entropy).length = 5
        ∧ (∀ i ∈ debugIndices env.trainDataset.length env.entropy,
            i ≤ env.trainDataset.length - 2)
        ∧ env.trainDataset.length - 1 ∉ debugIndices env.trainDataset.length env.entropy
        ∧ Event.checkDatasetLabels (debugSelection env.trainDataset env.entropy) ∈
            trainTrace cfg cli env
        ∧ (cli.prepare_ds_only = false →
            ∀ r, resolveCheckpoint cfg env.dirEntries = Except.ok r →
              Event.setupTrainer env.trainDataset ∈ trainTrace cfg cli env)) := by
  simp only [Bool.or_eq_false_iff] at hmode
  obtain ⟨⟨hs, hm⟩, hi⟩ := hmode
  constructor
  · intro hlt
    simp [trainTrace, hs, hm, hi, hdbg, hlt]
  · intro hge
    have hnlt : ¬ env.trainDataset.length < 2 := by omega
    have hpos : 0 < env.trainDataset.length - 1 := by omega
    refine ⟨by simp [debugIndices], ?_, ?_, ?_, ?_⟩
    · intro i hmem
      simp only [debugIndices, List.mem_map, List.mem_range] at hmem
      obtain ⟨a, _, rfl⟩ := hmem
      have := Nat.mod_lt (env.entropy a) hpos
      omega
    · intro hmem
      simp only [debugIndices, List.mem_map, List.mem_range] at hmem
      obtain ⟨a, _, heq⟩ := hmem
      have := Nat.mod_lt (env.entropy a) hpos
      omega
    · simp [trainTrace, hs, hm, hi, hdbg, hnlt]
    · intro hp r hr
      simp [trainTrace, afterDebug, trainModeTail, hs, hm, hi, hdbg, hnlt, hp, hr,
        trainModePre]

/-- C1 counterexample: with the CLI flag combination `{debug, shard}` the
invocation raises `NameError` while inspecting the never-prepared dataset,
so zero run modes execute — not exactly one as claimed for every flag
combination. -/
theorem mode_dispatch_not_total_cex :
    trainTrace cfgT cliDbgShard envT = [Event.loadTokenizer, Event.raise PyError.nameError]
    ∧ modeMarks (trainTrace cfgT cliDbgShard envT) = [] := by
  constructor <;> rfl

/-- C1 (amended): provided the run does not abort first — debug inspection
is not combined with a non-training mode flag and has at least two
examples, and `merge_lora` without an adapter does not fall into the
dataset-less training path — the mode branches are evaluated in the fixed
priority order prepare_ds_only, merge_lora-with-adapter, inference, shard,
train, and exactly one mode's terminal sequence executes. -/
theorem mode_dispatch_priority_amended (cfg : Cfg) (cli : TrainerCliArgs) (env : Env)
    (hdbg : (cli.debug || cfg.debug) = true →
      (cli.shard || cli.merge_lora || cli.inference) = false
        ∧ 2 ≤ env.trainDataset.length)
    (hmerge : cli.merge_lora = true → cfg.adapter = none →
      (cli.inference || cli.shard) = true)
    (hres : ∃ r, resolveCheckpoint cfg env.dirEntries = Except.ok r) :
    modeMarks (trainTrace cfg cli env) = [selectedMode cfg cli] := by
  obtain ⟨r, hr⟩ := hres
  cases hd : (cli.debug || cfg.debug) with
  | true =>
    obtain ⟨hmode, hlen⟩ := hdbg hd
    simp only [Bool.or_eq_false_iff] at hmode
    obtain ⟨⟨hs, hm⟩, hi⟩ := hmode
    have hnlt : ¬ env.trainDataset.length < 2 := by omega
    have hkey := marks_afterDebug cfg cli env (some env.trainDataset) r hr
      (fun _ _ _ _ => rfl)
    simp only [trainTrace, hs, hm, hi, hd, Bool.or_self, Bool.false_eq_true, if_false,
      if_true, hnlt, modeMarks, List.filterMap_append, List.filterMap_cons, modeMark,
      List.filterMap_nil] at hkey ⊢
    simpa using hkey
  | false =>
    cases hsk : (cli.shard || cli.merge_lora || cli.inference) with
    | true =>
      have hkey := marks_afterDebug cfg cli env none r hr ?hds
      case hds =>
        intro _ hmg hin hsh
        rw [hsh, hin] at hsk
        simp only [Bool.false_or, Bool.or_false] at hsk
        rw [hsk] at hmg
        simp only [Bool.true_and] at hmg
        have had : cfg.adapter = none := Option.not_isSome_iff_eq_none.mp (by simp [hmg])
        have := hmerge hsk had
        rw [hin, hsh] at this
        simp at this
      simp only [trainTrace, hsk, hd, Bool.false_eq_true, if_false, if_true, modeMarks,
        List.filterMap_append, List.filterMap_cons, modeMark, List.filterMap_nil] at hkey ⊢
      simpa using hkey
    | false =>
      have hkey := marks_afterDebug cfg cli env (some env.trainDataset) r hr
        (fun _ _ _ _ => rfl)
      simp only [trainTrace, hsk, hd, Bool.false_eq_true, if_false, if_true, modeMarks,
        List.filterMap_append, List.filterMap_cons, modeMark, List.filterMap_nil] at hkey ⊢
      simpa using hkey

/-- C1 witness: with both `merge_lora` (adapter present) and `shard` set,
only the merge branch's terminal sequence executes. -/
theorem mode_dispatch_priority_wit :
    modeMarks (trainTrace cfgLora cliMS envT) = [Mode.mergeLora] := by
  have h := mode_dispatch_priority_amended cfgLora cliMS envT (by decide) (by decide)
    ⟨none, rfl⟩
  simpa using h

/-- C2: on a training-path run only the coordinating process (local rank 0)
installs the SIGINT handler; delivering the signal on the coordinating
process runs the handler, which reverses the flash_optimum transform when
it was applied, then saves the model to the configured output directory
with the configured serialization format, then exits with status 0;
delivering it on any non-coordinating process saves nothing. -/
theorem interrupt_handler_rank0 (cfg : Cfg) (cli : TrainerCliArgs) (env : Env)
    (hpo : cli.prepare_ds_only = false) (hml : cli.merge_lora = false)
    (hin : cli.inference = false) (hsh : cli.shard = false)
    (hdbg : (cli.debug || cfg.debug) = true → 2 ≤ env.trainDataset.length)
    (hres : ∃ r, resolveCheckpoint cfg env.dirEntries = Except.ok r) :
    ((Event.installSigint ∈ trainTrace cfg cli env) ↔ cfg.local_rank = 0)
    ∧ (cfg.local_rank = 0 →
        deliverSigint (trainTrace cfg cli env) cfg =
          (if cfg.flash_optimum then [Event.reverseBetterTransformer] else []) ++
            [Event.saveModelW cfg.output_dir (safeSer cfg), Event.exitProcess 0])
    ∧ (cfg.local_rank ≠ 0 → deliverSigint (trainTrace cfg cli env) cfg = []) := by
  obtain ⟨r, hr⟩ := hres
  have hns := sigint_not_in_finalize cfg
  have hmem : (Event.installSigint ∈ trainTrace cfg cli env) ↔ cfg.local_rank = 0 := by
    cases hd : (cli.debug || cfg.debug) with
    | true =>
      have hlen := hdbg hd
      have hnlt : ¬ env.trainDataset.length < 2 := by omega
      simp [trainTrace, afterDebug, trainModeTail, trainModePre, hpo, hml, hin, hsh,
        hd, hnlt, hr, hns, mem_if_singleton]
    | false =>
      simp [trainTrace, afterDebug, trainModeTail, trainModePre, hpo, hml, hin, hsh,
        hd, hr, hns, mem_if_singleton]
  refine ⟨hmem, ?_, ?_⟩
  · intro h0
    rw [deliverSigint, if_pos (hmem.mpr h0)]
    rfl
  · intro h0
    rw [deliverSigint, if_neg fun hm => h0 (hmem.mp hm)]

/-- C2 witness: on the coordinating process of a default training run, the
delivered interrupt performs exactly the save-and-exit sequence. -/
theorem interrupt_handler_rank0_wit :
    deliverSigint (trainTrace cfgT cliT envT) cfgT =
      [Event.saveModelW "out" false, Event.exitProcess 0] := by
  have h := interrupt_handler_rank0 cfgT cliT envT rfl rfl rfl rfl (by decide) ⟨none, rfl⟩
  simpa [cfgT, safeSer] using h.2.1 rfl

/-- C4: on normal training completion the final save follows the embedded
decision procedure: the trace ends with the finalizer; under an active
relora schedule a plain unquantized lora adapter is merged-and-unloaded and
then saved by the standard path while any other relora run re-saves
nothing; the standard path delegates to the trainer's distributed save
under fsdp and otherwise writes on local rank 0 only. -/
theorem final_save_decision (cfg : Cfg) (cli : TrainerCliArgs) (env : Env)
    (hpo : cli.prepare_ds_only = false) (hml : cli.merge_lora = false)
    (hin : cli.inference = false) (hsh : cli.shard = false)
    (hdbg : (cli.debug || cfg.debug) = true → 2 ≤ env.trainDataset.length)
    (hres : ∃ r, resolveCheckpoint cfg env.dirEntries = Except.ok r) :
    (∃ pre, trainTrace cfg cli env = pre ++ finalize cfg)
    ∧ (reloraActive cfg = true →
        ((cfg.adapter = some "lora" ∧ cfg.load_in_4bit = false ∧
            cfg.load_in_8bit = false) →
          finalize cfg = Event.mergeAndUnload :: standardSave cfg)
        ∧ (¬(cfg.adapter = some "lora" ∧ cfg.load_in_4bit = false ∧
            cfg.load_in_8bit = false) →
          finalize cfg = []))
    ∧ (reloraActive cfg = false → finalize cfg = standardSave cfg)
    ∧ (cfg.fsdp = true → standardSave cfg = [Event.trainerSaveModel cfg.output_dir])
    ∧ (cfg.fsdp = false → cfg.local_rank = 0 →
        standardSave cfg =
          (if cfg.flash_optimum then [Event.reverseBetterTransformer] else []) ++
            [Event.saveModelW cfg.output_dir (safeSer cfg)])
    ∧ (cfg.fsdp = false → cfg.local_rank ≠ 0 → standardSave cfg = []) := by
  obtain ⟨r, hr⟩ := hres
  refine ⟨?_, ?_, ?_, ?_, ?_, ?_⟩
  · cases hd : (cli.debug || cfg.debug) with
    | true =>
      have hlen := hdbg hd
      have hnlt : ¬ env.trainDataset.length < 2 := by omega
      exact ⟨Event.loadTokenizer :: Event.prepareDataset ::
        Event.checkDatasetLabels (debugSelection env.trainDataset env.entropy) ::
        Event.loadModel :: trainModePre cfg env env.trainDataset r,
        by simp [trainTrace, afterDebug, trainModeTail, hpo, hml, hin, hsh, hd, hnlt, hr]⟩
    | false =>
      exact ⟨Event.loadTokenizer :: Event.prepareDataset ::
        Event.loadModel :: trainModePre cfg env env.trainDataset r,
        by simp [trainTrace, afterDebug, trainModeTail, hpo, hml, hin, hsh, hd, hr]⟩
  · intro hrel
    constructor
    · rintro ⟨h1, h2, h3⟩
      simp [finalize, hrel, h1, h2, h3]
    · intro hcond
      rw [finalize, if_pos hrel]
      refine if_neg fun hb => hcond ?_
      simp only [Bool.and_eq_true, Bool.not_eq_true', decide_eq_true_eq] at hb
      exact ⟨hb.1.1, hb.1.2, hb.2⟩
  · intro hrel
    simp [finalize, hrel]
  · intro hf
    simp [standardSave, hf]
  · intro hf h0
    simp [standardSave, hf, h0]
  · intro hf h0
    simp [standardSave, hf, h0]

/-- C4 witness: with no relora schedule, no fsdp and local rank 0, the
finalizer is the plain rank-0 write. -/
theorem final_save_decision_wit :
    finalize cfgT = standardSave cfgT
    ∧ standardSave cfgT = [Event.saveModelW "out" false] := by
  have h := final_save_decision cfgT cliT envT rfl rfl rfl rfl (by decide) ⟨none, rfl⟩
  refine ⟨h.2.2.1 rfl, ?_⟩
  simpa [cfgT, safeSer] using h.2.2.2.2.1 rfl (by decide)

/-- C3 counterexample: with `fsdp` and `flash_optimum` both set, training
completes and the final save is delegated to the trainer with no
BetterTransformer reversal anywhere in the run — the claimed reversal in
the fsdp save branch does not exist. -/
theorem fsdp_no_flash_reverse_cex :
    cfgFsdpFlash.flash_optimum = true
    ∧ Event.trainerSaveModel "out" ∈ trainTrace cfgFsdpFlash cliT envT
    ∧ Event.reverseBetterTransformer ∉ trainTrace cfgFsdpFlash cliT envT := by
  refine ⟨rfl, by decide, by decide⟩

/-- C3 (amended): on normal completion the flash_optimum transform is
reversed immediately before serialization in the rank-0 non-fsdp save
branch (mirroring the interrupt path), but the fsdp branch delegates the
save without any reversal. -/
theorem flash_reverse_before_save_amended (cfg : Cfg) :
    (cfg.fsdp = false → cfg.local_rank = 0 → cfg.flash_optimum = true →
      (reloraActive cfg = false ∨
        (cfg.adapter = some "lora" ∧ cfg.load_in_4bit = false ∧
          cfg.load_in_8bit = false)) →
      ∃ pre, finalize cfg = pre ++
        [Event.reverseBetterTransformer, Event.saveModelW cfg.output_dir (safeSer cfg)])
    ∧ (cfg.fsdp = true → Event.reverseBetterTransformer ∉ finalize cfg) := by
  constructor
  · intro hf h0 hfl hcase
    rcases hcase with hrel | ⟨h1, h2, h3⟩
    · exact ⟨[], by simp [finalize, standardSave, hrel, hf, h0, hfl]⟩
    · by_cases hrel : reloraActive cfg
      · exact ⟨[Event.mergeAndUnload],
          by simp [finalize, standardSave, hrel, h1, h2, h3, hf, h0, hfl]⟩
      · exact ⟨[], by simp [finalize, standardSave, hrel, hf, h0, hfl]⟩
  · intro hf
    unfold finalize standardSave
    simp only [hf, if_true]
    split_ifs <;> simp

/-- C3 witness: in the rank-0 non-fsdp branch with flash_optimum set, the
reversal immediately precedes the serialization. -/
theorem flash_reverse_before_save_wit :
    ∃ pre, finalize cfgFlash = pre ++
      [Event.reverseBetterTransformer, Event.saveModelW "out" false] := by
  have h := (flash_reverse_before_save_amended cfgFlash).1 rfl rfl rfl (Or.inl rfl)
  simpa [cfgFlash, cfgT, safeSer] using h

/-- C5 counterexample: a non-coordinating process (local rank 1) of a
default training run writes the tokenizer files into the shared output
directory, so not every write into the output directory is performed by the
coordinating process. -/
theorem tokenizer_write_all_ranks_cex :
    cfgR1.local_rank = 1 ∧ Event.saveTokenizer "out" ∈ trainTrace cfgR1 cliT envT :=
  ⟨rfl, by decide⟩

/-- C5 (amended): in train mode a non-coordinating, non-fsdp process never
writes model weights (no direct save and no delegated trainer save), but
the tokenizer save into the output directory before training — and the
adapter-config pre-save when a peft config exists — are executed by every
process. -/
theorem rank_write_discipline_amended (cfg : Cfg) (cli : TrainerCliArgs) (env : Env)
    (hpo : cli.prepare_ds_only = false) (hml : cli.merge_lora = false)
    (hin : cli.inference = false) (hsh : cli.shard = false)
    (hdbg : (cli.debug || cfg.debug) = true → 2 ≤ env.trainDataset.length)
    (hres : ∃ r, resolveCheckpoint cfg env.dirEntries = Except.ok r)
    (hrank : cfg.local_rank ≠ 0) (hfsdp : cfg.fsdp = false) :
    (∀ d s, Event.saveModelW d s ∉ trainTrace cfg cli env)
    ∧ (∀ d, Event.trainerSaveModel d ∉ trainTrace cfg cli env)
    ∧ Event.saveTokenizer cfg.output_dir ∈ trainTrace cfg cli env
    ∧ (env.peftConfig = true →
        Event.savePeftConfig cfg.output_dir ∈ trainTrace cfg cli env) := by
  obtain ⟨r, hr⟩ := hres
  have hss : standardSave cfg = [] := by
    simp [standardSave, hfsdp, hrank]
  have hfin : finalize cfg = [] ∨ finalize cfg = [Event.mergeAndUnload] := by
    unfold finalize
    split_ifs <;> simp [hss]
  have htr : ∀ P : List Event → Prop,
      (P (Event.loadTokenizer :: Event.prepareDataset ::
        Event.checkDatasetLabels (debugSelection env.trainDataset env.entropy) ::
        Event.loadModel :: (trainModePre cfg env env.trainDataset r ++ finalize cfg))) →
      (P (Event.loadTokenizer :: Event.prepareDataset ::
        Event.loadModel :: (trainModePre cfg env env.trainDataset r ++ finalize cfg))) →
      P (trainTrace cfg cli env) := by
    intro P h1 h2
    cases hd : (cli.debug || cfg.debug) with
    | true =>
      have hlen := hdbg hd
      have hnlt : ¬ env.trainDataset.length < 2 := by omega
      have : trainTrace cfg cli env = Event.loadTokenizer :: Event.prepareDataset ::
          Event.checkDatasetLabels (debugSelection env.trainDataset env.entropy) ::
          Event.loadModel :: (trainModePre cfg env env.trainDataset r ++ finalize cfg) := by
        simp [trainTrace, afterDebug, trainModeTail, hpo, hml, hin, hsh, hd, hnlt, hr]
      rw [this]
      exact h1
    | false =>
      have : trainTrace cfg cli env = Event.loadTokenizer :: Event.prepareDataset ::
          Event.loadModel :: (trainModePre cfg env env.trainDataset r ++ finalize cfg) := by
        simp [trainTrace, afterDebug, trainModeTail, hpo, hml, hin, hsh, hd, hr]
      rw [this]
      exact h2
  refine ⟨?_, ?_, ?_, ?_⟩
  · intro d s
    refine htr (fun tr => Event.saveModelW d s ∉ tr) ?_ ?_ <;>
      rcases hfin with hf | hf <;>
        simp [trainModePre, hf, mem_if_singleton]
  · intro d
    refine htr (fun tr => Event.trainerSaveModel d ∉ tr) ?_ ?_ <;>
      rcases hfin with hf | hf <;>
        simp [trainModePre, hf, mem_if_singleton]
  · refine htr (fun tr => Event.saveTokenizer cfg.output_dir ∈ tr) ?_ ?_ <;>
      simp [trainModePre]
  · intro hpc
    refine htr (fun tr => Event.savePeftConfig cfg.output_dir ∈ tr) ?_ ?_ <;>
      simp [trainModePre, hpc]

/-- C5 witness: the non-coordinating rank-1 process performs the tokenizer
write but no model-weight write. -/
theorem rank_write_discipline_wit :
    Event.saveTokenizer "out" ∈ trainTrace cfgR1 cliT envT := by
  have h := rank_write_discipline_amended cfgR1 cliT envT rfl rfl rfl rfl (by decide)
    ⟨none, rfl⟩ (by decide) rfl
  simpa [cfgR1, cfgT] using h.2.2.1

/-- C9 counterexample: with `merge_lora` set and no adapter configured (and
no other mode flag), the merge branch is skipped but the invocation then
raises `NameError` at trainer setup instead of falling through to an
executing mode — no mode's terminal sequence runs. -/
theorem merge_without_adapter_cex :
    trainTrace cfgT cliM envT =
      [Event.loadTokenizer, Event.loadModel, Event.raise PyError.nameError]
    ∧ modeMarks (trainTrace cfgT cliM envT) = [] :=
  ⟨rfl, rfl⟩

/-- C9 (amended): when `merge_lora` is set without an adapter the merge
branch never executes (no merge-and-unload and no write into the `merged`
subdirectory); control falls through to inference or shard when one of
those flags is set, while the fall-through into default training aborts
with `NameError` because dataset preparation was skipped for the merge
flag. -/
theorem merge_without_adapter_amended (cfg : Cfg) (cli : TrainerCliArgs) (env : Env)
    (hml : cli.merge_lora = true) (had : cfg.adapter = none)
    (hdbg : (cli.debug || cfg.debug) = false) :
    (Event.mergeAndUnload ∉ trainTrace cfg cli env
      ∧ ∀ s, Event.saveModelW (cfg.output_dir ++ "/merged") s ∉ trainTrace cfg cli env)
    ∧ (cli.prepare_ds_only = false → cli.inference = true →
        modeMarks (trainTrace cfg cli env) = [Mode.inferenceMode])
    ∧ (cli.prepare_ds_only = false → cli.inference = false → cli.shard = true →
        modeMarks (trainTrace cfg cli env) = [Mode.shardMode])
    ∧ (cli.prepare_ds_only = false → cli.inference = false → cli.shard = false →
        ∀ r, resolveCheckpoint cfg env.dirEntries = Except.ok r →
          (trainTrace cfg cli env).getLast? = some (Event.raise PyError.nameError)) := by
  refine ⟨?_, ?_, ?_, ?_⟩
  · constructor
    · cases hpo : cli.prepare_ds_only with
      | true => simp [trainTrace, afterDebug, hml, hdbg, hpo]
      | false =>
        cases hin : cli.inference with
        | true => simp [trainTrace, afterDebug, hml, had, hdbg, hpo, hin]
        | false =>
          cases hsh : cli.shard with
          | true => simp [trainTrace, afterDebug, hml, had, hdbg, hpo, hin, hsh]
          | false =>
            cases hres : resolveCheckpoint cfg env.dirEntries with
            | error e =>
              simp [trainTrace, afterDebug, trainModeTail, hml, had, hdbg, hpo, hin,
                hsh, hres]
            | ok r =>
              simp [trainTrace, afterDebug, trainModeTail, hml, had, hdbg, hpo, hin,
                hsh, hres]
    · intro s
      cases hpo : cli.prepare_ds_only with
      | true => simp [trainTrace, afterDebug, hml, hdbg, hpo]
      | false =>
        cases hin : cli.inference with
        | true => simp [trainTrace, afterDebug, hml, had, hdbg, hpo, hin]
        | false =>
          cases hsh : cli.shard with
          | true =>
            simp [trainTrace, afterDebug, hml, had, hdbg, hpo, hin, hsh,
              append_merged_ne cfg.output_dir]
          | false =>
            cases hres : resolveCheckpoint cfg env.dirEntries with
            | error e =>
              simp [trainTrace, afterDebug, trainModeTail, hml, had, hdbg, hpo, hin,
                hsh, hres]
            | ok r =>
              simp [trainTrace, afterDebug, trainModeTail, hml, had, hdbg, hpo, hin,
                hsh, hres]
  · intro hpo hin
    simp [trainTrace, afterDebug, hml, had, hdbg, hpo, hin, modeMarks, modeMark]
  · intro hpo hin hsh
    simp [trainTrace, afterDebug, hml, had, hdbg, hpo, hin, hsh, modeMarks, modeMark]
  · intro hpo hin hsh r hres
    simp [trainTrace, afterDebug, trainModeTail, hml, had, hdbg, hpo, hin, hsh, hres,
      List.getLast?]

/-- C9 witness: with `merge_lora` (no adapter) and `shard` both set, the
merge branch is skipped and the shard mode executes. -/
theorem merge_without_adapter_wit :
    modeMarks (trainTrace cfgT cliMS envT) = [Mode.shardMode] := by
  have h := merge_without_adapter_amended cfgT cliMS envT rfl rfl rfl
  exact h.2.2.1 rfl rfl rfl

/-- C10 witness: on a three-example split the inspection event appears in
the trace and all five indices avoid the last example. -/
theorem debug_sampling_range_wit :
    (debugIndices envT.trainDataset.length envT.entropy).length = 5
    ∧ envT.trainDataset.length - 1 ∉ debugIndices envT.trainDataset.length envT.entropy
    ∧ Event.checkDatasetLabels (debugSelection envT.trainDataset envT.entropy) ∈
        trainTrace cfgT cliDbg envT := by
  have h := (debug_sampling_range cfgT cliDbg envT (by decide) (by decide)).2 (by decide)
  exact ⟨h.1, h.2.2.1, h.2.2.2.1⟩

end Finetune
